import Mathlib

/-!
# Verification of the Gloomhaven engine core against its specification

Shallow embedding of the hex-grid geometry (`src/engine/core/hex.ts`), the
relevant parts of the game store (`src/store/gameStore.ts`) and the type
constants (`src/engine/core/types.ts`).  JavaScript numbers are modelled as
`ℤ` (all values occurring in the verified operations are integral; the two
places where the source performs genuine non-integral arithmetic —
`averageLevel` division and hex-line interpolation — are modelled with exact
rationals `ℚ`).  JavaScript strings are modelled as `List Char`; a
`Map`/object is modelled as an association list in insertion order, matching
the iteration-order semantics of JavaScript `Map` and `Set`.
-/

namespace Gloomhaven

/-- Axial hex coordinate, from `interface Hex { q; r }` in `types.ts`. -/
structure Hex where
  q : ℤ
  r : ℤ
deriving DecidableEq, Repr

/-- Terrain types, from `enum TerrainType` in `types.ts`. -/
inductive TerrainType where
  | NORMAL | DIFFICULT | HAZARD | OBSTACLE | WALL | WATER | ICE | LAVA
deriving DecidableEq, Repr

/-- Game hex, from `interface GameHex` in `types.ts`.  Only the fields that
are read or written by the operations embedded here are modelled (`terrain`,
`occupant`); `id`, `overlay`, `items` and `tokens` are never inspected by any
verified function.  Both modelled fields are optional in the source
(`terrain?`, `occupant?`), hence `Option`. -/
structure GameHex where
  terrain : Option TerrainType
  occupant : Option (List Char)
deriving DecidableEq, Repr

/-- `hexDistance` from `hex.ts`: `(|Δq| + |Δ(q+r)| + |Δr|) / 2`.  The sum of
the three absolute values is always even, so JavaScript's exact float
division agrees with integer division here. -/
def hexDistance (hex1 hex2 : Hex) : ℤ :=
  (((hex1.q - hex2.q).natAbs +
    (hex1.q + hex1.r - hex2.q - hex2.r).natAbs +
    (hex1.r - hex2.r).natAbs : ℕ) : ℤ) / 2

/-- `hexAdd` from `hex.ts`. -/
def hexAdd (hex1 hex2 : Hex) : Hex :=
  ⟨hex1.q + hex2.q, hex1.r + hex2.r⟩

/-- `hexSubtract` from `hex.ts`. -/
def hexSubtract (hex1 hex2 : Hex) : Hex :=
  ⟨hex1.q - hex2.q, hex1.r - hex2.r⟩

/-- `hexEquals` from `hex.ts`. -/
def hexEquals (hex1 hex2 : Hex) : Bool :=
  hex1.q == hex2.q && hex1.r == hex2.r

/-- Decimal digit character, used to model JavaScript's number-to-string
conversion. -/
def digitChar : ℕ → Char
  | 0 => '0' | 1 => '1' | 2 => '2' | 3 => '3' | 4 => '4'
  | 5 => '5' | 6 => '6' | 7 => '7' | 8 => '8' | _ => '9'

/-- Fuel-indexed digit expansion; the fuel only serves to make the
recursion structural (so that proofs can evaluate it by kernel reduction),
and is irrelevant whenever it is at least the argument. -/
def natToCharsGo : ℕ → ℕ → List Char
  | 0, n => [digitChar n]
  | fuel + 1, n =>
    if n < 10 then [digitChar n]
    else natToCharsGo fuel (n / 10) ++ [digitChar (n % 10)]

/-- Decimal representation of a natural number (most significant digit
first), modelling JavaScript's `Number.prototype.toString` on non-negative
integers. -/
def natToChars (n : ℕ) : List Char := natToCharsGo n n

theorem natToCharsGo_fuel_irrel (n : ℕ) : ∀ f1 f2, n ≤ f1 → n ≤ f2 →
    natToCharsGo f1 n = natToCharsGo f2 n := by
  induction n using Nat.strong_induction_on with
  | _ n ih =>
    intro f1 f2 h1 h2
    match f1, f2 with
    | 0, 0 => rfl
    | 0, f2 + 1 =>
      have : n = 0 := by omega
      subst this
      rfl
    | f1 + 1, 0 =>
      have : n = 0 := by omega
      subst this
      rfl
    | f1 + 1, f2 + 1 =>
      show (if n < 10 then [digitChar n]
          else natToCharsGo f1 (n / 10) ++ [digitChar (n % 10)]) =
        (if n < 10 then [digitChar n]
          else natToCharsGo f2 (n / 10) ++ [digitChar (n % 10)])
      by_cases h : n < 10
      · rw [if_pos h, if_pos h]
      · rw [if_neg h, if_neg h, ih (n / 10) (by omega) f1 f2 (by omega) (by omega)]

/-- The defining recurrence of `natToChars`. -/
theorem natToChars_unfold (n : ℕ) : natToChars n =
    if n < 10 then [digitChar n]
    else natToChars (n / 10) ++ [digitChar (n % 10)] := by
  unfold natToChars
  match hn : n with
  | 0 => rfl
  | m + 1 =>
    show (if m + 1 < 10 then [digitChar (m + 1)]
        else natToCharsGo m ((m + 1) / 10) ++ [digitChar ((m + 1) % 10)]) = _
    by_cases h : m + 1 < 10
    · rw [if_pos h, if_pos h]
    · rw [if_neg h, if_neg h,
        natToCharsGo_fuel_irrel ((m + 1) / 10) m ((m + 1) / 10) (by omega) (by omega)]

/-- Decimal representation of an integer, modelling the string interpolation
`${n}` in JavaScript for integral `n` (a leading `-` for negatives). -/
def intToChars (n : ℤ) : List Char :=
  if n < 0 then '-' :: natToChars (-n).toNat else natToChars n.toNat

/-- `hexToKey` from `hex.ts`: the template literal `` `${hex.q},${hex.r}` ``. -/
def hexToKey (hex : Hex) : List Char :=
  intToChars hex.q ++ ',' :: intToChars hex.r

/-- Decimal parse of a non-empty all-digit string; building block of the
`Number(...)` model below. -/
def parseDigits (cs : List Char) : Option ℕ :=
  if cs.isEmpty then none
  else if cs.all Char.isDigit then
    some (cs.foldl (fun acc c => 10 * acc + (c.toNat - 48)) 0)
  else none

/-- Model of JavaScript's `Number(...)` on the strings that occur as hex-key
components: an optional leading `-` followed by decimal digits.  `none`
models `NaN` (and the `undefined` component of a short destructuring). -/
def jsNumber : List Char → Option ℤ
  | [] => none
  | c :: rest =>
    if c = '-' then (parseDigits rest).map (fun v : ℕ => -(v : ℤ))
    else (parseDigits (c :: rest)).map (fun v : ℕ => (v : ℤ))

/-- Model of `key.split(',')`: maximal comma-free segments, with empty
segments kept, exactly as JavaScript's `String.prototype.split`. -/
def splitOnComma : List Char → List (List Char)
  | [] => [[]]
  | c :: rest =>
    if c = ',' then [] :: splitOnComma rest
    else
      match splitOnComma rest with
      | [] => [[c]]
      | p :: ps => (c :: p) :: ps

/-- `keyToHex` from `hex.ts`: `const [q, r] = key.split(',').map(Number)`,
then `{ q, r }`.  A missing or non-numeric component makes the JavaScript
result a NaN coordinate, modelled as `none`. -/
def keyToHex (key : List Char) : Option Hex :=
  match splitOnComma key with
  | a :: b :: _ =>
    match jsNumber a, jsNumber b with
    | some q, some r => some ⟨q, r⟩
    | _, _ => none
  | _ => none

/-- `HEX_DIRECTIONS` from `hex.ts`: E, NE, NW, W, SW, SE. -/
def HEX_DIRECTIONS : List Hex :=
  [⟨1, 0⟩, ⟨1, -1⟩, ⟨0, -1⟩, ⟨-1, 0⟩, ⟨-1, 1⟩, ⟨0, 1⟩]

/-- `getNeighbors` from `hex.ts`. -/
def getNeighbors (hex : Hex) : List Hex :=
  HEX_DIRECTIONS.map (fun dir => hexAdd hex dir)

/-- `getNeighbor` from `hex.ts`.  The source indexes
`HEX_DIRECTIONS[direction % 6]`; every call site passes `0 ≤ direction ≤ 5`,
so the `getD` default is unreachable. -/
def getNeighbor (hex : Hex) (direction : ℕ) : Hex :=
  hexAdd hex (HEX_DIRECTIONS.getD (direction % 6) ⟨0, 0⟩)

/-- The integer list `[a, a+1, …, b]` (empty when `b < a`), used to embed
the `for (let i = a; i <= b; i++)` loops of the source. -/
def intRange (a b : ℤ) : List ℤ :=
  (List.range (b + 1 - a).toNat).map (fun i : ℕ => a + (i : ℤ))

/-- `getHexesInRange` from `hex.ts`: for each `q` in `[-range, range]`, all
`r` in `[max(-range, -q-range), min(range, -q+range)]`, offset by the
center. -/
def getHexesInRange (center : Hex) (range : ℤ) : List Hex :=
  (intRange (-range) range).flatMap (fun q =>
    (intRange (max (-range) (-q - range)) (min range (-q + range))).map
      (fun r => ⟨center.q + q, center.r + r⟩))

/-- The walk of `getHexRing`'s nested loop: visit the current hex, then step
to `getNeighbor hex d` for each direction index `d` in the list. -/
def ringWalk : Hex → List ℕ → List Hex
  | _, [] => []
  | hex, d :: ds => hex :: ringWalk (getNeighbor hex d) ds

/-- `getHexRing` from `hex.ts`: starts at `center + {q:0, r:-radius}` and,
for each direction index `i = 0..5`, pushes the current hex and steps in
direction `i`, `radius` times. -/
def getHexRing (center : Hex) (radius : ℕ) : List Hex :=
  if radius = 0 then [center]
  else
    ringWalk (hexAdd center ⟨0, -(radius : ℤ)⟩)
      ((List.range 6).flatMap (fun i => List.replicate radius i))

-- ===== Helper lemmas for the geometry =====

theorem mem_intRange {a b x : ℤ} : x ∈ intRange a b ↔ a ≤ x ∧ x ≤ b := by
  unfold intRange
  rw [List.mem_map]
  constructor
  · rintro ⟨i, hi, rfl⟩
    rw [List.mem_range] at hi
    omega
  · rintro ⟨h1, h2⟩
    exact ⟨(x - a).toNat, List.mem_range.mpr (by omega), by omega⟩

theorem length_intRange (a b : ℤ) : (intRange a b).length = (b + 1 - a).toNat := by
  unfold intRange
  rw [List.length_map, List.length_range]

/-- Sum of a function mapped over `List.range`, as a `Finset` sum. -/
theorem sum_map_list_range (f : ℕ → ℕ) (m : ℕ) :
    ((List.range m).map f).sum = ∑ i ∈ Finset.range m, f i := by
  induction m with
  | zero => simp
  | succ k ih => simp [List.range_succ, Finset.sum_range_succ, ih]

/-- Sum of a function mapped over `intRange`, as a `Finset` sum. -/
theorem sum_map_intRange (f : ℤ → ℕ) (a b : ℤ) :
    ((intRange a b).map f).sum = ∑ i ∈ Finset.range (b + 1 - a).toNat, f (a + (i : ℤ)) := by
  unfold intRange
  rw [List.map_map, sum_map_list_range]
  rfl

/-- The per-column hex count of `getHexesInRange` at column index `i`
(column `q = i - m`), written with truncated subtraction: `2m+1 - |i-m|`. -/
def columnCount (m i : ℕ) : ℕ :=
  2 * m + 1 - ((i - m) + (m - i))

theorem sum_columnCount (m : ℕ) :
    (∑ i ∈ Finset.range (2 * m + 1), columnCount m i) = 3 * m ^ 2 + 3 * m + 1 := by
  induction m with
  | zero => decide
  | succ k ih =>
    have hstep : (2 * (k + 1) + 1) = (2 * k + 1) + 1 + 1 := by ring
    rw [hstep, Finset.sum_range_succ, Finset.sum_range_succ']
    have hshift : (∑ i ∈ Finset.range (2 * k + 1), columnCount (k + 1) (i + 1)) =
        ∑ i ∈ Finset.range (2 * k + 1), (columnCount k i + 2) := by
      refine Finset.sum_congr rfl (fun i hi => ?_)
      simp only [Finset.mem_range] at hi
      simp only [columnCount]
      omega
    rw [hshift, Finset.sum_add_distrib, ih]
    simp only [columnCount, Finset.sum_const, Finset.card_range, smul_eq_mul]
    ring_nf
    omega

theorem length_flatMap_eq {α β : Type} (l : List α) (f : α → List β) :
    (l.flatMap f).length = (l.map (fun a => (f a).length)).sum := by
  induction l with
  | nil => rfl
  | cons x xs ih => simp [List.flatMap_cons, ih]

-- ===== Helper lemmas for the string key encoding =====

theorem digitChar_isDigit {d : ℕ} (hd : d < 10) : (digitChar d).isDigit = true := by
  interval_cases d <;> decide

theorem digitChar_val {d : ℕ} (hd : d < 10) : (digitChar d).toNat - 48 = d := by
  interval_cases d <;> decide

theorem natToChars_ne_nil (n : ℕ) : natToChars n ≠ [] := by
  rw [natToChars_unfold]
  split <;> simp

theorem natToChars_all_digits (n : ℕ) : (natToChars n).all Char.isDigit = true := by
  induction n using Nat.strong_induction_on with
  | _ n ih =>
    rw [natToChars_unfold]
    split
    · next h => simp [digitChar_isDigit h]
    · next h =>
      rw [List.all_append]
      refine Bool.and_eq_true_iff.mpr ⟨ih (n / 10) (by omega), ?_⟩
      simp [digitChar_isDigit (Nat.mod_lt n (by omega))]

theorem parseVal_natToChars (n : ℕ) :
    (natToChars n).foldl (fun acc c => 10 * acc + (c.toNat - 48)) 0 = n := by
  induction n using Nat.strong_induction_on with
  | _ n ih =>
    rw [natToChars_unfold]
    split
    · next h => simp [digitChar_val h]
    · next h =>
      rw [List.foldl_append]
      rw [ih (n / 10) (by omega)]
      simp only [List.foldl_cons, List.foldl_nil]
      rw [digitChar_val (Nat.mod_lt n (by omega))]
      omega

theorem parseDigits_natToChars (n : ℕ) : parseDigits (natToChars n) = some n := by
  unfold parseDigits
  rw [if_neg (by simp [List.isEmpty_iff, natToChars_ne_nil]), if_pos (natToChars_all_digits n),
    parseVal_natToChars]

theorem natToChars_head_digit (n : ℕ) :
    ∃ c rest, natToChars n = c :: rest ∧ c.isDigit = true := by
  cases hx : natToChars n with
  | nil => exact absurd hx (natToChars_ne_nil _)
  | cons c rest =>
    refine ⟨c, rest, rfl, ?_⟩
    have hall := natToChars_all_digits n
    rw [hx, List.all_cons, Bool.and_eq_true_iff] at hall
    exact hall.1

theorem jsNumber_intToChars (n : ℤ) : jsNumber (intToChars n) = some n := by
  unfold intToChars
  split
  · next h =>
    rw [show jsNumber ('-' :: natToChars (-n).toNat)
        = (parseDigits (natToChars (-n).toNat)).map (fun v : ℕ => -(v : ℤ)) by
      simp [jsNumber]]
    rw [parseDigits_natToChars]
    simp only [Option.map_some']
    congr 1
    omega
  · next h =>
    obtain ⟨c, rest, hcs, hdig⟩ := natToChars_head_digit n.toNat
    have hne : c ≠ '-' := fun hc => absurd (hc ▸ hdig) (by decide)
    rw [hcs]
    rw [show jsNumber (c :: rest) = (parseDigits (c :: rest)).map (fun v : ℕ => (v : ℤ)) by
      simp [jsNumber, hne]]
    rw [← hcs, parseDigits_natToChars]
    simp only [Option.map_some']
    congr 1
    omega

theorem natToChars_no_comma (n : ℕ) : ',' ∉ natToChars n := by
  intro hmem
  have hall := natToChars_all_digits n
  rw [List.all_eq_true] at hall
  exact absurd (hall _ hmem) (by decide)

theorem intToChars_no_comma (n : ℤ) : ',' ∉ intToChars n := by
  unfold intToChars
  split
  · intro hmem
    rcases List.mem_cons.mp hmem with h | h
    · exact absurd h (by decide)
    · exact natToChars_no_comma _ h
  · exact natToChars_no_comma _

theorem splitOnComma_append (a b : List Char) (ha : ',' ∉ a) :
    splitOnComma (a ++ ',' :: b) = a :: splitOnComma b := by
  induction a with
  | nil => simp [splitOnComma]
  | cons c cs ih =>
    have hc : c ≠ ',' := fun h => ha (h ▸ List.mem_cons_self c cs)
    have hcs : ',' ∉ cs := fun h => ha (List.mem_cons_of_mem c h)
    rw [List.cons_append]
    rw [show splitOnComma (c :: (cs ++ ',' :: b))
        = match splitOnComma (cs ++ ',' :: b) with
          | [] => [[c]]
          | p :: ps => (c :: p) :: ps by
      simp [splitOnComma, hc]]
    rw [ih hcs]

theorem splitOnComma_of_no_comma (a : List Char) (ha : ',' ∉ a) :
    splitOnComma a = [a] := by
  induction a with
  | nil => rfl
  | cons c cs ih =>
    have hc : c ≠ ',' := fun h => ha (h ▸ List.mem_cons_self c cs)
    have hcs : ',' ∉ cs := fun h => ha (List.mem_cons_of_mem c h)
    rw [show splitOnComma (c :: cs)
        = match splitOnComma cs with
          | [] => [[c]]
          | p :: ps => (c :: p) :: ps by
      simp [splitOnComma, hc]]
    rw [ih hcs]

-- ===== Claim theorems about rings and ranges =====

/-- C2: the claim states `getHexRing center r` is exactly the set of hexes at
distance `r`.  The code walks the ring corners with mismatched direction
indices, so for `radius = 1` it returns hexes at distances 1, 1, 2, 3, 3, 2
from the center — it contains `⟨2,-2⟩` (distance 2) and omits the true
distance-1 neighbor `⟨1,0⟩`.  This evaluation exhibits the divergence between
the code and its own doc comment ("Array of hexes at exactly that
distance"). -/
theorem getHexRing_violates_ring_contract :
    getHexRing ⟨0, 0⟩ 1 =
      [⟨0, -1⟩, ⟨1, -1⟩, ⟨2, -2⟩, ⟨2, -3⟩, ⟨1, -3⟩, ⟨0, -2⟩] ∧
    (⟨2, -2⟩ : Hex) ∈ getHexRing ⟨0, 0⟩ 1 ∧
    hexDistance ⟨0, 0⟩ ⟨2, -2⟩ = 2 ∧
    (⟨1, 0⟩ : Hex) ∉ getHexRing ⟨0, 0⟩ 1 ∧
    hexDistance ⟨0, 0⟩ ⟨1, 0⟩ = 1 := by
  refine ⟨by decide, by decide, by decide, by decide, by decide⟩

/-- C7: `getHexesInRange center n` contains exactly the hexes at distance at
most `n` from `center`, and for `n ≥ 0` it has exactly `3n² + 3n + 1`
entries. -/
theorem getHexesInRange_exact (center : Hex) (n : ℤ) (hn : 0 ≤ n) :
    (∀ h : Hex, h ∈ getHexesInRange center n ↔ hexDistance center h ≤ n) ∧
    ((getHexesInRange center n).length : ℤ) = 3 * n ^ 2 + 3 * n + 1 := by
  constructor
  · intro h
    simp only [getHexesInRange, List.mem_flatMap, List.mem_map, mem_intRange]
    constructor
    · rintro ⟨q, ⟨hq1, hq2⟩, r, ⟨⟨hr1, hr2⟩, rfl⟩⟩
      simp only [hexDistance]
      omega
    · intro hd
      simp only [hexDistance] at hd
      refine ⟨h.q - center.q, ⟨by omega, by omega⟩, h.r - center.r, ⟨⟨by omega, by omega⟩, ?_⟩⟩
      cases h
      simp only [Hex.mk.injEq]
      omega
  · set m : ℕ := n.toNat with hm
    rw [getHexesInRange, length_flatMap_eq]
    simp only [List.length_map, length_intRange]
    rw [sum_map_intRange]
    have hM : (n + 1 - -n).toNat = 2 * m + 1 := by omega
    rw [hM]
    have hpt : ∀ i ∈ Finset.range (2 * m + 1),
        (min n (-(-n + (i : ℤ)) + n) + 1 - max (-n) (-(-n + (i : ℤ)) - n)).toNat =
        columnCount m i := by
      intro i hi
      simp only [Finset.mem_range] at hi
      simp only [columnCount]
      omega
    rw [Finset.sum_congr rfl hpt, sum_columnCount]
    push_cast
    have hmn : (m : ℤ) = n := by omega
    rw [hmn]

/-- C10: the string key encoding of hex coordinates round-trips exactly:
`keyToHex (hexToKey h) = h` for every hex with integer coordinates. -/
theorem keyToHex_hexToKey (h : Hex) : keyToHex (hexToKey h) = some h := by
  unfold hexToKey keyToHex
  rw [splitOnComma_append _ _ (intToChars_no_comma h.q),
    splitOnComma_of_no_comma _ (intToChars_no_comma h.r)]
  show (match jsNumber (intToChars h.q), jsNumber (intToChars h.r) with
      | some q, some r => some (⟨q, r⟩ : Hex)
      | _, _ => none) = some h
  rw [jsNumber_intToChars, jsNumber_intToChars]

/-- Injectivity of the hex key encoding (corollary of the round trip), used
to transfer frame conditions between keys and hexes. -/
theorem hexToKey_injective {h1 h2 : Hex} (h : hexToKey h1 = hexToKey h2) : h1 = h2 := by
  have e1 := keyToHex_hexToKey h1
  have e2 := keyToHex_hexToKey h2
  rw [h, e2] at e1
  injection e1 with e
  exact e.symm

-- ===== Maps and line of sight =====

def mapGet {α : Type} : List (List Char × α) → List Char → Option α
  | [], _ => none
  | (k, v) :: rest, key => if k = key then some v else mapGet rest key

def mapSet {α : Type} : List (List Char × α) → List Char → α → List (List Char × α)
  | [], key, v => [(key, v)]
  | (k, w) :: rest, key, v =>
    if k = key then (k, v) :: rest else (k, w) :: mapSet rest key v

abbrev GameMap := List (List Char × GameHex)

def jsRound (x : ℚ) : ℤ := ⌊x + 1 / 2⌋

def hexRound (q r : ℚ) : Hex :=
  let s := -q - r
  let rq := jsRound q
  let rr := jsRound r
  let rs := jsRound s
  let qDiff := |(rq : ℚ) - q|
  let rDiff := |(rr : ℚ) - r|
  let sDiff := |(rs : ℚ) - s|
  if qDiff > rDiff ∧ qDiff > sDiff then ⟨-rr - rs, rr⟩
  else if rDiff > sDiff then ⟨rq, -rq - rs⟩
  else ⟨rq, rr⟩

def getHexLine (start stop : Hex) : List Hex :=
  let distance := hexDistance start stop
  (List.range (distance.toNat + 1)).map (fun i : ℕ =>
    let t : ℚ := if distance = 0 then 0 else (i : ℚ) / (distance : ℚ)
    hexRound ((start.q : ℚ) + ((stop.q - start.q : ℤ) : ℚ) * t)
             ((start.r : ℚ) + ((stop.r - start.r : ℤ) : ℚ) * t))

def losInterior (start stop : Hex) : List Hex :=
  ((getHexLine start stop).drop 1).dropLast

def hasLineOfSight (start stop : Hex) (gameMap : GameMap) : Bool :=
  if hexEquals start stop then true
  else
    (losInterior start stop).all (fun h =>
      match mapGet gameMap (hexToKey h) with
      | none => true
      | some gh =>
        if gh.terrain = some TerrainType.WALL ∨ gh.terrain = some TerrainType.OBSTACLE
        then false else true)

theorem hexEquals_iff (a b : Hex) : hexEquals a b = true ↔ a = b := by
  cases a; cases b
  simp [hexEquals, Hex.mk.injEq]

theorem hexDistance_self (a : Hex) : hexDistance a a = 0 := by
  simp [hexDistance]

theorem length_getHexLine (a b : Hex) :
    (getHexLine a b).length = (hexDistance a b).toNat + 1 := by
  simp [getHexLine]

theorem hasLineOfSight_spec (gameMap : GameMap) :
    (∀ a, hasLineOfSight a a gameMap = true) ∧
    (∀ a b, hexDistance a b = 1 → hasLineOfSight a b gameMap = true) ∧
    (∀ a b, hasLineOfSight a b gameMap = false ↔
      ∃ h ∈ losInterior a b, ∃ gh, mapGet gameMap (hexToKey h) = some gh ∧
        (gh.terrain = some TerrainType.WALL ∨ gh.terrain = some TerrainType.OBSTACLE)) := by
  have hblock : ∀ h, (match mapGet gameMap (hexToKey h) with
      | none => true
      | some gh =>
        if gh.terrain = some TerrainType.WALL ∨ gh.terrain = some TerrainType.OBSTACLE
        then false else true) = false ↔
      ∃ gh, mapGet gameMap (hexToKey h) = some gh ∧
        (gh.terrain = some TerrainType.WALL ∨ gh.terrain = some TerrainType.OBSTACLE) := by
    intro h
    cases hm : mapGet gameMap (hexToKey h) with
    | none => simp
    | some gh =>
      by_cases hb : gh.terrain = some TerrainType.WALL ∨ gh.terrain = some TerrainType.OBSTACLE
      · simp [hb]
      · simp [hb]
  refine ⟨?_, ?_, ?_⟩
  · intro a
    simp [hasLineOfSight, hexEquals_iff]
  · intro a b hd
    have hne : ¬ (a = b) := by
      intro he
      rw [he, hexDistance_self] at hd
      exact absurd hd (by decide)
    have hlen : (getHexLine a b).length = 2 := by
      rw [length_getHexLine, hd]
      rfl
    have hint : losInterior a b = [] := by
      unfold losInterior
      have h1 : ((getHexLine a b).drop 1).length = 1 := by
        rw [List.length_drop, hlen]
      obtain ⟨x, hx⟩ := List.length_eq_one.mp h1
      rw [hx]
      rfl
    unfold hasLineOfSight
    rw [if_neg (by rw [hexEquals_iff]; exact hne), hint]
    rfl
  · intro a b
    by_cases he : a = b
    · subst he
      constructor
      · intro hfalse
        rw [show hasLineOfSight a a gameMap = true by simp [hasLineOfSight, hexEquals_iff]] at hfalse
        exact absurd hfalse (by decide)
      · rintro ⟨h, hmem, _⟩
        have : losInterior a a = [] := by
          unfold losInterior
          have h1 : ((getHexLine a a).drop 1).length = 0 := by
            rw [List.length_drop, length_getHexLine, hexDistance_self]
            rfl
          rw [List.length_eq_zero.mp h1]
          rfl
        rw [this] at hmem
        exact absurd hmem (List.not_mem_nil h)
    · unfold hasLineOfSight
      rw [if_neg (by rw [hexEquals_iff]; exact he)]
      rw [List.all_eq_false]
      constructor
      · rintro ⟨h, hmem, hp⟩
        exact ⟨h, hmem, (hblock h).mp (by simpa using hp)⟩
      · rintro ⟨h, hmem, hgh⟩
        exact ⟨h, hmem, by simpa using (hblock h).mpr hgh⟩

/-- C4 witness: the line-of-sight theorem applied at a concrete input, with
the inner adjacency hypothesis discharged by evaluation. -/
theorem hasLineOfSight_spec_witness :
    hasLineOfSight ⟨0, 0⟩ ⟨1, 0⟩ [] = true :=
  (hasLineOfSight_spec []).2.1 ⟨0, 0⟩ ⟨1, 0⟩ (by decide)


-- ===== Game store model (`gameStore.ts`) =====

/-- Elements, from `enum Element` in `types.ts`; `elementValues` lists them
in declaration order, matching `Object.values(Element)`. -/
inductive Element where
  | FIRE | ICE | AIR | EARTH | LIGHT | DARK
deriving DecidableEq, Repr

def elementValues : List Element :=
  [Element.FIRE, Element.ICE, Element.AIR, Element.EARTH, Element.LIGHT, Element.DARK]

/-- Element states, from `enum ElementState` in `types.ts`. -/
inductive ElementState where
  | INERT | WANING | STRONG
deriving DecidableEq, Repr

/-- The per-scenario element tracker (`ElementTracker` in `types.ts`): one
state cell per element, modelled as a function indexed by `Element`. -/
abbrev ElementTracker := Element → ElementState

/-- `createInitialElementTracker` from `gameStore.ts`: all six cells INERT. -/
def createInitialElementTracker : ElementTracker := fun _ => ElementState.INERT

/-- Assignment `elements[element] = state` on the tracker object. -/
def setElement (t : ElementTracker) (element : Element) (state : ElementState) :
    ElementTracker :=
  fun x => if x = element then state else t x

/-- Character, from `interface Character` in `types.ts`.  Only the fields
read or written by the verified store actions are modelled (`level`,
`position`); the store keys characters by their id in a `Map`, so the id
lives in the association-list key. -/
structure Character where
  level : ℤ
  position : Option Hex
deriving DecidableEq, Repr

/-- Active scenario (`ScenarioState`), restricted to the fields the verified
actions inspect: `level`, `mapState.hexes` and `elements`.  The remaining
fields (round, phase, initiative, monsters, objectives, treasures, map
metadata) are never read by the operations under verification. -/
structure Scenario where
  id : ℤ
  level : ℤ
  hexes : GameMap
  elements : ElementTracker

/-- Game state (`GloomhavenGameState`), restricted to the fields the
verified actions touch: `campaign.reputation`, `party.reputation`,
`party.members`, `characters` and `scenario`. -/
structure GameState where
  campaignReputation : ℤ
  partyReputation : ℤ
  partyMembers : List (List Char)
  characters : List (List Char × Character)
  scenario : Option Scenario

/-- `createInitialGameState` from `gameStore.ts`, projected onto the
modelled fields: both reputations start at 0, no party members, no
characters, no active scenario. -/
def createInitialGameState : GameState :=
  { campaignReputation := 0
    partyReputation := 0
    partyMembers := []
    characters := []
    scenario := none }

/-- `updateReputation` from `gameStore.ts`:
`campaign.reputation = Math.max(-20, Math.min(20, reputation + change))`. -/
def updateReputation (s : GameState) (change : ℤ) : GameState :=
  { s with campaignReputation := max (-20) (min 20 (s.campaignReputation + change)) }

/-- `updatePartyReputation` from `gameStore.ts`: same clamp on
`party.reputation`. -/
def updatePartyReputation (s : GameState) (change : ℤ) : GameState :=
  { s with partyReputation := max (-20) (min 20 (s.partyReputation + change)) }

/-- `infuseElement` from `gameStore.ts`: with an active scenario, set the
element's cell directly to STRONG. -/
def infuseElement (s : GameState) (element : Element) : GameState :=
  match s.scenario with
  | some sc =>
    { s with
      scenario :=
        some ({ sc with elements := setElement sc.elements element ElementState.STRONG }) }
  | none => s

/-- `consumeElement` from `gameStore.ts`: returns `true` and sets the cell
to INERT when it is STRONG or WANING, otherwise returns `false` without
touching the state.  The returned pair is (return value, new state). -/
def consumeElement (s : GameState) (element : Element) : Bool × GameState :=
  match s.scenario with
  | some sc =>
    if sc.elements element = ElementState.STRONG ∨
        sc.elements element = ElementState.WANING then
      (true,
        { s with
          scenario :=
            some ({ sc with elements := setElement sc.elements element ElementState.INERT }) })
    else (false, s)
  | none => (false, s)

/-- Body of the per-element wane loop in `waneElements` (and `endRound`):
STRONG steps to WANING, WANING steps to INERT, anything else is left
alone. -/
def waneOne (acc : ElementTracker) (element : Element) : ElementTracker :=
  if acc element = ElementState.STRONG then setElement acc element ElementState.WANING
  else if acc element = ElementState.WANING then setElement acc element ElementState.INERT
  else acc

/-- `waneElements` from `gameStore.ts`: with an active scenario, run the
wane loop over `Object.values(Element)`. -/
def waneElements (s : GameState) : GameState :=
  match s.scenario with
  | some sc =>
    { s with
      scenario := some ({ sc with elements := elementValues.foldl waneOne sc.elements }) }
  | none => s

/-- The one-step decay automaton, as stated by the spec: STRONG to WANING to
INERT, INERT stays INERT. -/
def waneStep : ElementState → ElementState
  | ElementState.STRONG => ElementState.WANING
  | ElementState.WANING => ElementState.INERT
  | s => s

-- ===== Helper lemmas for the element tracker =====

theorem waneOne_apply (t : ElementTracker) (x y : Element) :
    waneOne t x y = if y = x then waneStep (t x) else t y := by
  unfold waneOne setElement waneStep
  by_cases h : y = x
  · subst h
    cases ht : t y <;> simp [ht]
  · cases ht : t x <;> simp [h, ht]

theorem foldl_waneOne_not_mem (l : List Element) (t : ElementTracker) (e : Element)
    (he : e ∉ l) : (l.foldl waneOne t) e = t e := by
  induction l generalizing t with
  | nil => rfl
  | cons x xs ih =>
    have hx : e ≠ x := fun h => he (h ▸ List.mem_cons_self x xs)
    have hxs : e ∉ xs := fun h => he (List.mem_cons_of_mem x h)
    rw [List.foldl_cons, ih _ hxs, waneOne_apply, if_neg hx]

theorem foldl_waneOne_mem (l : List Element) (t : ElementTracker) (e : Element)
    (he : e ∈ l) (hnd : l.Nodup) : (l.foldl waneOne t) e = waneStep (t e) := by
  induction l generalizing t with
  | nil => exact absurd he (List.not_mem_nil e)
  | cons x xs ih =>
    rw [List.foldl_cons]
    rcases List.mem_cons.mp he with h | h
    · subst h
      have hxs : e ∉ xs := (List.nodup_cons.mp hnd).1
      rw [foldl_waneOne_not_mem _ _ _ hxs, waneOne_apply, if_pos rfl]
    · have hex : e ≠ x := by
        intro hee
        exact absurd (hee ▸ h) (List.nodup_cons.mp hnd).1
      rw [ih _ h (List.nodup_cons.mp hnd).2, waneOne_apply, if_neg hex]

theorem foldl_waneOne_elementValues (t : ElementTracker) (e : Element) :
    (elementValues.foldl waneOne t) e = waneStep (t e) :=
  foldl_waneOne_mem elementValues t e (by cases e <;> decide) (by decide)


theorem infuseElement_scenario (s : GameState) (sc : Scenario) (e : Element)
    (h : s.scenario = some sc) :
    (infuseElement s e).scenario =
      some ({ sc with elements := setElement sc.elements e ElementState.STRONG }) := by
  unfold infuseElement
  rw [h]

theorem waneElements_scenario (s : GameState) (sc : Scenario)
    (h : s.scenario = some sc) :
    (waneElements s).scenario =
      some ({ sc with elements := elementValues.foldl waneOne sc.elements }) := by
  unfold waneElements
  rw [h]

-- ===== Claim theorems about the element automaton =====

/-- C5: with an active scenario, `consumeElement e` returns `true` and sets
the element's cell to INERT when the cell is STRONG or WANING; when the cell
is INERT it returns `false` and leaves the whole state unchanged. -/
theorem consumeElement_spec (s : GameState) (sc : Scenario) (e : Element)
    (h : s.scenario = some sc) :
    ((sc.elements e = ElementState.STRONG ∨ sc.elements e = ElementState.WANING) →
      (consumeElement s e).1 = true ∧
      (consumeElement s e).2.scenario.map (fun x => x.elements e) =
        some ElementState.INERT) ∧
    (sc.elements e = ElementState.INERT → consumeElement s e = (false, s)) := by
  have hc : consumeElement s e =
      if sc.elements e = ElementState.STRONG ∨ sc.elements e = ElementState.WANING then
        (true,
          { s with
            scenario :=
              some ({ sc with elements := setElement sc.elements e ElementState.INERT }) })
      else (false, s) := by
    unfold consumeElement
    rw [h]
  rw [hc]
  constructor
  · intro hs
    rw [if_pos hs]
    exact ⟨rfl, by simp [setElement]⟩
  · intro hi
    rw [if_neg (by rw [hi]; rintro (h1 | h1) <;> exact absurd h1 (by decide))]

/-- C6: with an active scenario, infusing sets the element's cell directly
to STRONG regardless of its prior state; each `waneElements` call steps
every one of the six cells by exactly one automaton transition (STRONG to
WANING, WANING to INERT, INERT stays INERT); and infuse followed by two
successive wanes takes the cell through STRONG, WANING, INERT. -/
theorem element_automaton (s : GameState) (sc : Scenario) (e : Element)
    (h : s.scenario = some sc) :
    (infuseElement s e).scenario.map (fun x => x.elements e) =
        some ElementState.STRONG ∧
    (∀ x, (waneElements s).scenario.map (fun y => y.elements x) =
        some (waneStep (sc.elements x))) ∧
    (waneElements (infuseElement s e)).scenario.map (fun x => x.elements e) =
        some ElementState.WANING ∧
    (waneElements (waneElements (infuseElement s e))).scenario.map
        (fun x => x.elements e) = some ElementState.INERT := by
  have h1 := infuseElement_scenario s sc e h
  have h2 := waneElements_scenario (infuseElement s e) _ h1
  have h3 := waneElements_scenario (waneElements (infuseElement s e)) _ h2
  refine ⟨?_, ?_, ?_, ?_⟩
  · rw [h1]
    simp [setElement]
  · intro x
    rw [waneElements_scenario s sc h]
    simp [foldl_waneOne_elementValues]
  · rw [h2]
    simp [foldl_waneOne_elementValues, setElement, waneStep]
  · rw [h3]
    simp [foldl_waneOne_elementValues, setElement, waneStep]

-- ===== Reputation clamping =====

/-- A reputation update call: either `updateReputation` (campaign) or
`updatePartyReputation` (party), with its integer change argument. -/
inductive RepOp where
  | campaign (change : ℤ)
  | party (change : ℤ)

def applyRepOp (s : GameState) : RepOp → GameState
  | RepOp.campaign change => updateReputation s change
  | RepOp.party change => updatePartyReputation s change

/-- C8: starting from the initial game state, any finite sequence of
reputation updates with arbitrary integer changes keeps both
`campaign.reputation` and `party.reputation` within `[-20, 20]`. -/
theorem reputation_clamped (ops : List RepOp) :
    -20 ≤ (ops.foldl applyRepOp createInitialGameState).campaignReputation ∧
    (ops.foldl applyRepOp createInitialGameState).campaignReputation ≤ 20 ∧
    -20 ≤ (ops.foldl applyRepOp createInitialGameState).partyReputation ∧
    (ops.foldl applyRepOp createInitialGameState).partyReputation ≤ 20 := by
  have key : ∀ (l : List RepOp) (s : GameState),
      (-20 ≤ s.campaignReputation ∧ s.campaignReputation ≤ 20 ∧
        -20 ≤ s.partyReputation ∧ s.partyReputation ≤ 20) →
      (-20 ≤ (l.foldl applyRepOp s).campaignReputation ∧
        (l.foldl applyRepOp s).campaignReputation ≤ 20 ∧
        -20 ≤ (l.foldl applyRepOp s).partyReputation ∧
        (l.foldl applyRepOp s).partyReputation ≤ 20) := by
    intro l
    induction l with
    | nil => exact fun s hs => hs
    | cons op rest ih =>
      intro s hs
      rw [List.foldl_cons]
      apply ih
      cases op with
      | campaign c =>
        refine ⟨?_, ?_, ?_, ?_⟩ <;> simp [applyRepOp, updateReputation] <;> omega
      | party c =>
        refine ⟨?_, ?_, ?_, ?_⟩ <;> simp [applyRepOp, updatePartyReputation] <;> omega
  exact key ops createInitialGameState (by norm_num [createInitialGameState])


-- ===== Witness fixtures =====

/-- Concrete scenario used by witness instantiations. -/
def witnessScenario : Scenario :=
  { id := 1, level := 1, hexes := [], elements := fun _ => ElementState.WANING }

/-- Concrete game state with an active scenario, used by witness
instantiations. -/
def witnessState : GameState :=
  { createInitialGameState with scenario := some witnessScenario }

/-- C7 witness: the range theorem applied at center (0,0) and n = 2. -/
theorem getHexesInRange_exact_witness :
    (0 : ℤ) ≤ 2 ∧
    ((∀ h : Hex, h ∈ getHexesInRange ⟨0, 0⟩ 2 ↔ hexDistance ⟨0, 0⟩ h ≤ 2) ∧
      ((getHexesInRange ⟨0, 0⟩ 2).length : ℤ) = 3 * 2 ^ 2 + 3 * 2 + 1) :=
  ⟨by decide, getHexesInRange_exact ⟨0, 0⟩ 2 (by decide)⟩

/-- C5 witness: the consume theorem applied to a concrete state whose FIRE
cell is WANING. -/
theorem consumeElement_spec_witness :
    ((witnessScenario.elements Element.FIRE = ElementState.STRONG ∨
        witnessScenario.elements Element.FIRE = ElementState.WANING) →
      (consumeElement witnessState Element.FIRE).1 = true ∧
      (consumeElement witnessState Element.FIRE).2.scenario.map
          (fun x => x.elements Element.FIRE) = some ElementState.INERT) ∧
    (witnessScenario.elements Element.FIRE = ElementState.INERT →
      consumeElement witnessState Element.FIRE = (false, witnessState)) :=
  consumeElement_spec witnessState witnessScenario Element.FIRE rfl

/-- C6 witness: the automaton theorem applied to a concrete state. -/
theorem element_automaton_witness :
    (infuseElement witnessState Element.FIRE).scenario.map
        (fun x => x.elements Element.FIRE) = some ElementState.STRONG ∧
    (∀ x, (waneElements witnessState).scenario.map (fun y => y.elements x) =
        some (waneStep (witnessScenario.elements x))) ∧
    (waneElements (infuseElement witnessState Element.FIRE)).scenario.map
        (fun x => x.elements Element.FIRE) = some ElementState.WANING ∧
    (waneElements (waneElements (infuseElement witnessState Element.FIRE))).scenario.map
        (fun x => x.elements Element.FIRE) = some ElementState.INERT :=
  element_automaton witnessState witnessScenario Element.FIRE rfl

-- ===== Scenario start (`startScenario`) =====

/-- The characters found for the party id list:
`partyMembers.map(id => characters.get(id)).filter(Boolean)`. -/
def foundCharacters (characters : List (List Char × Character))
    (partyMembers : List (List Char)) : List Character :=
  partyMembers.filterMap (fun cid => mapGet characters cid)

/-- `averageLevel` from `startScenario`:
`characters.reduce((sum, c) => sum + c.level, 0) / characters.length`,
with JavaScript float division modelled as exact rational division (0/0,
i.e. NaN, only arises for an empty character list). -/
def averageLevel (chars : List Character) : ℚ :=
  (((chars.map (fun c => c.level)).sum : ℤ) : ℚ) / ((chars.length : ℕ) : ℚ)

/-- The `scenarioLevel` computation of `startScenario`:
`Math.max(0, Math.floor(averageLevel / 2))`, plus 2 when the party has
exactly 5 members. -/
def computeScenarioLevel (characters : List (List Char × Character))
    (partyMembers : List (List Char)) : ℤ :=
  let base := max 0 ⌊averageLevel (foundCharacters characters partyMembers) / 2⌋
  if partyMembers.length = 5 then base + 2 else base

/-- The 5×5 test hex map built by `startScenario`: all hexes with `q`, `r`
in `[-2, 2]`, normal terrain, no occupant. -/
def startScenarioHexMap : GameMap :=
  (intRange (-2) 2).foldl (fun m q =>
    (intRange (-2) 2).foldl (fun m2 r =>
      mapSet m2 (hexToKey ⟨q, r⟩) { terrain := some TerrainType.NORMAL, occupant := none }) m) []

/-- The character-placement loop of `startScenario`: the `index`-th party
member is placed at `{q: index - floor(partyMembers.length / 2), r: 0}`,
updating both the character's position and the hex occupant. -/
def placeCharacters (characters : List (List Char × Character)) (hexMap : GameMap)
    (partyMembers : List (List Char)) :
    List (List Char × Character) × GameMap :=
  partyMembers.enum.foldl (fun acc p =>
    let startPosition : Hex := ⟨(p.1 : ℤ) - (partyMembers.length : ℤ) / 2, 0⟩
    match mapGet acc.1 p.2 with
    | some character =>
      let chars2 := mapSet acc.1 p.2 { character with position := some startPosition }
      let hexes2 :=
        match mapGet acc.2 (hexToKey startPosition) with
        | some hex => mapSet acc.2 (hexToKey startPosition)
            { hex with occupant := some p.2 }
        | none => acc.2
      (chars2, hexes2)
    | none => acc) (characters, hexMap)

/-- `startScenario` from `gameStore.ts`, projected onto the modelled state:
computes the scenario level from the party's average character level (with
the 5-player +2 modifier), builds the 5×5 test map, places the party
members, and installs the new scenario with a fresh element tracker. -/
def startScenario (s : GameState) (scenarioId : ℤ)
    (partyMembers : List (List Char)) : GameState :=
  let scenarioLevel := computeScenarioLevel s.characters partyMembers
  let placed := placeCharacters s.characters startScenarioHexMap partyMembers
  { s with
    characters := placed.1
    scenario :=
      some { id := scenarioId
             level := scenarioLevel
             hexes := placed.2
             elements := createInitialElementTracker } }

/-- C3: when every party member exists with non-negative level and the party
is non-empty with average level L, the created scenario's level is
`⌊L/2⌋ + 2` for a party of exactly 5 and `⌊L/2⌋` otherwise. -/
theorem startScenario_level (s : GameState) (scenarioId : ℤ)
    (partyMembers : List (List Char))
    (_hpne : partyMembers ≠ [])
    (hmem : ∀ m ∈ partyMembers, ∃ c, mapGet s.characters m = some c ∧ 0 ≤ c.level) :
    (startScenario s scenarioId partyMembers).scenario.map (fun sc => sc.level) =
      some (if partyMembers.length = 5
        then ⌊averageLevel (foundCharacters s.characters partyMembers) / 2⌋ + 2
        else ⌊averageLevel (foundCharacters s.characters partyMembers) / 2⌋) := by
  have hlvl : ∀ c ∈ foundCharacters s.characters partyMembers, (0 : ℤ) ≤ c.level := by
    intro c hc
    obtain ⟨m, hm, hget⟩ := List.mem_filterMap.mp hc
    obtain ⟨c', hc', hlev⟩ := hmem m hm
    rw [hget] at hc'
    injection hc' with he
    exact he ▸ hlev
  have havg : (0 : ℚ) ≤ averageLevel (foundCharacters s.characters partyMembers) := by
    unfold averageLevel
    apply div_nonneg
    · exact_mod_cast List.sum_nonneg (by
        intro x hx
        obtain ⟨c, hc, rfl⟩ := List.mem_map.mp hx
        exact hlvl c hc)
    · positivity
  have hfloor : (0 : ℤ) ≤ ⌊averageLevel (foundCharacters s.characters partyMembers) / 2⌋ :=
    Int.floor_nonneg.mpr (div_nonneg havg (by norm_num))
  show some (computeScenarioLevel s.characters partyMembers) = _
  unfold computeScenarioLevel
  rw [max_eq_right hfloor]


-- ===== Association map lemmas =====

theorem mapGet_mapSet_self {α : Type} (m : List (List Char × α)) (k : List Char) (v : α) :
    mapGet (mapSet m k v) k = some v := by
  induction m with
  | nil => simp [mapGet, mapSet]
  | cons kv rest ih =>
    obtain ⟨k', w⟩ := kv
    by_cases h : k' = k
    · simp [mapGet, mapSet, h]
    · simp [mapGet, mapSet, h, ih]

theorem mapGet_mapSet_ne {α : Type} (m : List (List Char × α)) (k key : List Char) (v : α)
    (h : key ≠ k) : mapGet (mapSet m k v) key = mapGet m key := by
  have hk : k ≠ key := fun hh => h hh.symm
  induction m with
  | nil =>
    show (if k = key then some v else none) = none
    rw [if_neg hk]
  | cons kv rest ih =>
    obtain ⟨k', w⟩ := kv
    show mapGet (if k' = k then (k', v) :: rest else (k', w) :: mapSet rest k v) key
        = if k' = key then some w else mapGet rest key
    by_cases hkk : k' = k
    · rw [if_pos hkk]
      show (if k' = key then some v else mapGet rest key) = _
      rw [if_neg (fun hh : k' = key => hk (hkk.symm.trans hh)),
        if_neg (fun hh : k' = key => hk (hkk.symm.trans hh))]
    · rw [if_neg hkk]
      show (if k' = key then some w else mapGet (mapSet rest k v) key) = _
      by_cases hky : k' = key
      · rw [if_pos hky, if_pos hky]
      · rw [if_neg hky, if_neg hky, ih]

-- ===== Character movement (`moveCharacter`) =====

/-- Core of the old-hex clearing step of `moveCharacter`: clear the
occupant of the hex at `pos`, but only when that occupant is this
character. -/
def clearOldHexAt (hexes : GameMap) (characterId : List Char) (pos : Hex) : GameMap :=
  match mapGet hexes (hexToKey pos) with
  | some oldHex =>
    if oldHex.occupant = some characterId then
      mapSet hexes (hexToKey pos) { oldHex with occupant := none }
    else hexes
  | none => hexes

/-- First half of `moveCharacter`'s body: clear the previous hex when the
character has a recorded position. -/
def clearOldHex (hexes : GameMap) (characterId : List Char) :
    Option Hex → GameMap
  | some pos => clearOldHexAt hexes characterId pos
  | none => hexes

/-- Second half of `moveCharacter`'s body: record the character as occupant
of the target hex when it exists on the board. -/
def setNewHex (hexes : GameMap) (characterId : List Char) (targetHex : Hex) : GameMap :=
  match mapGet hexes (hexToKey targetHex) with
  | some newHex =>
    mapSet hexes (hexToKey targetHex) { newHex with occupant := some characterId }
  | none => hexes

/-- `moveCharacter` from `gameStore.ts`: requires an existing character and
an active scenario; clears the old hex occupant (when it is this
character), updates the character's position, and sets the new hex
occupant. -/
def moveCharacter (s : GameState) (characterId : List Char) (targetHex : Hex) : GameState :=
  match mapGet s.characters characterId, s.scenario with
  | some character, some sc =>
    { s with
      characters :=
        mapSet s.characters characterId { character with position := some targetHex }
      scenario :=
        some ({ sc with
          hexes := setNewHex (clearOldHex sc.hexes characterId character.position)
            characterId targetHex }) }
  | _, _ => s

theorem setNewHex_frame (hexes : GameMap) (characterId : List Char) (targetHex : Hex)
    (key : List Char) (h : key ≠ hexToKey targetHex) :
    mapGet (setNewHex hexes characterId targetHex) key = mapGet hexes key := by
  unfold setNewHex
  cases hm : mapGet hexes (hexToKey targetHex) with
  | none => rfl
  | some newHex => exact mapGet_mapSet_ne _ _ _ _ h

theorem clearOldHex_frame (hexes : GameMap) (characterId : List Char)
    (position : Option Hex) (key : List Char)
    (h : ∀ pos, position = some pos → key ≠ hexToKey pos) :
    mapGet (clearOldHex hexes characterId position) key = mapGet hexes key := by
  cases position with
  | none => rfl
  | some pos =>
    show mapGet (clearOldHexAt hexes characterId pos) key = mapGet hexes key
    unfold clearOldHexAt
    cases hm : mapGet hexes (hexToKey pos) with
    | none => rfl
    | some oldHex =>
      show mapGet (if oldHex.occupant = some characterId then
          mapSet hexes (hexToKey pos) { oldHex with occupant := none }
        else hexes) key = mapGet hexes key
      by_cases hocc : oldHex.occupant = some characterId
      · rw [if_pos hocc]
        exact mapGet_mapSet_ne _ _ _ _ (h pos rfl)
      · rw [if_neg hocc]

theorem clearOldHex_other_occupant (hexes : GameMap) (characterId : List Char)
    (pos : Hex) (oldHex : GameHex)
    (hget : mapGet hexes (hexToKey pos) = some oldHex)
    (hocc : oldHex.occupant ≠ some characterId) :
    clearOldHex hexes characterId (some pos) = hexes := by
  show clearOldHexAt hexes characterId pos = hexes
  unfold clearOldHexAt
  rw [hget]
  show (if oldHex.occupant = some characterId then
      mapSet hexes (hexToKey pos) { oldHex with occupant := none }
    else hexes) = hexes
  rw [if_neg hocc]

/-- C9: `moveCharacter` on an existing character with an active scenario
leaves every board hex other than the previous position and the target
unchanged, leaves every other character unchanged, and does not touch the
previous hex when its recorded occupant is a different figure. -/
theorem moveCharacter_frame (s : GameState) (characterId : List Char) (targetHex : Hex)
    (c : Character) (sc : Scenario)
    (hc : mapGet s.characters characterId = some c)
    (hs : s.scenario = some sc) :
    ∃ sc', (moveCharacter s characterId targetHex).scenario = some sc' ∧
      (∀ h : Hex, h ≠ targetHex → (∀ pos, c.position = some pos → h ≠ pos) →
        mapGet sc'.hexes (hexToKey h) = mapGet sc.hexes (hexToKey h)) ∧
      (∀ cid, cid ≠ characterId →
        mapGet (moveCharacter s characterId targetHex).characters cid =
          mapGet s.characters cid) ∧
      (∀ pos oldHex, c.position = some pos → pos ≠ targetHex →
        mapGet sc.hexes (hexToKey pos) = some oldHex →
        oldHex.occupant ≠ some characterId →
        mapGet sc'.hexes (hexToKey pos) = some oldHex) := by
  have hmv : moveCharacter s characterId targetHex =
      { s with
        characters :=
          mapSet s.characters characterId { c with position := some targetHex }
        scenario :=
          some ({ sc with
            hexes := setNewHex (clearOldHex sc.hexes characterId c.position)
              characterId targetHex }) } := by
    unfold moveCharacter
    rw [hc, hs]
  refine ⟨_, by rw [hmv], ?_, ?_, ?_⟩
  · intro h hht hpos
    have hkt : hexToKey h ≠ hexToKey targetHex :=
      fun he => hht (hexToKey_injective he)
    rw [setNewHex_frame _ _ _ _ hkt]
    exact clearOldHex_frame _ _ _ _
      (fun pos hp he => hpos pos hp (hexToKey_injective he))
  · intro cid hcid
    rw [hmv]
    exact mapGet_mapSet_ne _ _ _ _ hcid
  · intro pos oldHex hposc hpt hget hocc
    have hkt : hexToKey pos ≠ hexToKey targetHex :=
      fun he => hpt (hexToKey_injective he)
    rw [setNewHex_frame _ _ _ _ hkt, hposc,
      clearOldHex_other_occupant _ _ _ _ hget hocc, hget]

-- ===== Witness fixtures for startScenario and moveCharacter =====

/-- Five level-3 characters keyed a…e, for the C3 witness. -/
def w5Characters : List (List Char × Character) :=
  [(['a'], { level := 3, position := none }),
   (['b'], { level := 3, position := none }),
   (['c'], { level := 3, position := none }),
   (['d'], { level := 3, position := none }),
   (['e'], { level := 3, position := none })]

def w5State : GameState :=
  { createInitialGameState with characters := w5Characters }

def w5Members : List (List Char) := [['a'], ['b'], ['c'], ['d'], ['e']]

/-- C3 witness: the scenario-level theorem applied to a 5-member party of
level-3 characters. -/
theorem startScenario_level_witness :
    (startScenario w5State 1 w5Members).scenario.map (fun sc => sc.level) =
      some (if w5Members.length = 5
        then ⌊averageLevel (foundCharacters w5State.characters w5Members) / 2⌋ + 2
        else ⌊averageLevel (foundCharacters w5State.characters w5Members) / 2⌋) :=
  startScenario_level w5State 1 w5Members (by decide)
    (by intro m hm; fin_cases hm <;> exact ⟨_, rfl, by decide⟩)

/-- Board and state for the C9 witness: character a stands at (0,0); the
board has hexes (0,0) and (1,0). -/
def w9Character : Character := { level := 1, position := some ⟨0, 0⟩ }

def w9Scenario : Scenario :=
  { id := 1, level := 0
    hexes := [(hexToKey ⟨0, 0⟩, { terrain := some TerrainType.NORMAL, occupant := some ['a'] }),
              (hexToKey ⟨1, 0⟩, { terrain := some TerrainType.NORMAL, occupant := none })]
    elements := createInitialElementTracker }

def w9State : GameState :=
  { createInitialGameState with
    characters := [(['a'], w9Character)]
    scenario := some w9Scenario }

/-- C9 witness: the frame theorem applied to the concrete move of character
a from (0,0) to (1,0). -/
theorem moveCharacter_frame_witness :
    ∃ sc', (moveCharacter w9State ['a'] ⟨1, 0⟩).scenario = some sc' ∧
      (∀ h : Hex, h ≠ (⟨1, 0⟩ : Hex) →
        (∀ pos, w9Character.position = some pos → h ≠ pos) →
        mapGet sc'.hexes (hexToKey h) = mapGet w9Scenario.hexes (hexToKey h)) ∧
      (∀ cid, cid ≠ ['a'] →
        mapGet (moveCharacter w9State ['a'] ⟨1, 0⟩).characters cid =
          mapGet w9State.characters cid) ∧
      (∀ pos oldHex, w9Character.position = some pos → pos ≠ (⟨1, 0⟩ : Hex) →
        mapGet w9Scenario.hexes (hexToKey pos) = some oldHex →
        oldHex.occupant ≠ some ['a'] →
        mapGet sc'.hexes (hexToKey pos) = some oldHex) :=
  moveCharacter_frame w9State ['a'] ⟨1, 0⟩ w9Character w9Scenario (by decide) rfl


-- ===== Pathfinding (`findPath`) =====

/-- Movement options, from `interface MovementOptions` in `types.ts`. -/
structure MovementOptions where
  range : ℤ
  canFly : Bool
  canJump : Bool
  ignoreDifficultTerrain : Bool
  ignoreObstacles : Bool
  ignoreFigures : Bool
deriving DecidableEq, Repr

/-- Path result, from `interface PathResult` in `types.ts`; a `cost` of
`none` models the JavaScript `Infinity` of the failure result. -/
structure PathResult where
  path : List Hex
  cost : Option ℤ
  isValid : Bool
deriving DecidableEq, Repr

/-- `isPassable` from `hex.ts`. -/
def isPassable (hex : GameHex) (options : MovementOptions) : Bool :=
  if options.canFly then
    decide (hex.terrain ≠ some TerrainType.WALL ∧ hex.terrain ≠ some TerrainType.OBSTACLE)
  else if options.canJump then
    decide (hex.terrain ≠ some TerrainType.WALL)
  else if hex.terrain = some TerrainType.WALL ∨ hex.terrain = some TerrainType.OBSTACLE then
    options.ignoreObstacles
  else if hex.occupant.isSome ∧ options.ignoreFigures = false then
    false
  else
    true

/-- `getMovementCost` from `hex.ts`. -/
def getMovementCost (hex : GameHex) (options : MovementOptions) : ℤ :=
  if options.canFly then 1
  else if hex.terrain = some TerrainType.DIFFICULT ∧ options.ignoreDifficultTerrain = false
  then 2
  else 1

/-- Strict `<` where `none` models `Infinity` (so `Infinity` is never below
anything, and a finite value is below `Infinity`). -/
def ltInf : Option ℤ → Option ℤ → Bool
  | none, _ => false
  | some _, none => true
  | some a, some b => decide (a < b)

/-- Addition where `none` models `Infinity`. -/
def addInf : Option ℤ → ℤ → Option ℤ
  | none, _ => none
  | some a, b => some (a + b)

/-- The `for (const node of openSet)` scan of `findPath`: the first node (in
insertion order) whose f-score is strictly below every earlier one.  `none`
models the initial `current = ''` / `lowestF = Infinity`. -/
def selectCurrent (openSet : List (List Char)) (fScore : List (List Char × ℤ)) :
    Option (List Char) × Option ℤ :=
  openSet.foldl (fun acc node =>
    if ltInf (mapGet fScore node) acc.2 then (some node, mapGet fScore node) else acc)
    (none, none)

/-- The mutable search state of `findPath`: the open set (a JavaScript `Set`
in insertion order) and the `cameFrom`/`gScore`/`fScore` maps. -/
structure AStarState where
  openSet : List (List Char)
  cameFrom : List (List Char × List Char)
  gScore : List (List Char × ℤ)
  fScore : List (List Char × ℤ)

/-- The neighbor-relaxation body of `findPath`'s inner `for` loop. -/
def relaxNeighbor (goal : Hex) (gameMap : GameMap) (options : MovementOptions)
    (current : List Char) (st : AStarState) (neighbor : Hex) : AStarState :=
  let neighborKey := hexToKey neighbor
  match mapGet gameMap neighborKey with
  | none => st
  | some neighborHex =>
    if isPassable neighborHex options = false then st
    else
      let moveCost := getMovementCost neighborHex options
      let tentativeG := addInf (mapGet st.gScore current) moveCost
      if ltInf tentativeG (mapGet st.gScore neighborKey) then
        match tentativeG with
        | some g =>
          { openSet :=
              if st.openSet.contains neighborKey then st.openSet
              else st.openSet ++ [neighborKey]
            cameFrom := mapSet st.cameFrom neighborKey current
            gScore := mapSet st.gScore neighborKey g
            fScore := mapSet st.fScore neighborKey (g + hexDistance neighbor goal) }
        | none => st
      else st

/-- The parent-pointer walk of `reconstructPath`; the fuel bounds the
`while (currentKey)` loop, and is chosen at the call site as one more than
the number of `cameFrom` entries, which the walk cannot exceed without
revisiting an entry. -/
def reconstructGo (cameFrom : List (List Char × List Char)) :
    ℕ → List Char → List Hex → List Hex
  | 0, _, path => path
  | fuel + 1, currentKey, path =>
    let path2 := (keyToHex currentKey).getD ⟨0, 0⟩ :: path
    match mapGet cameFrom currentKey with
    | none => path2
    | some parent => reconstructGo cameFrom fuel parent path2

/-- `reconstructPath` from `hex.ts`. -/
def reconstructPath (cameFrom : List (List Char × List Char)) (current : List Char)
    (totalCost : ℤ) : PathResult :=
  { path := reconstructGo cameFrom (cameFrom.length + 1) current []
    cost := some totalCost
    isValid := true }

/-- The `while (openSet.size > 0)` loop of `findPath`.  The fuel bounds the
number of loop iterations; exhausting it yields the no-path result, which
models the source's non-termination never being reached on the inputs
evaluated here.  All keys in play are produced by `hexToKey`, so the
`keyToHex` default (the JavaScript NaN hex for a malformed key) is
unreachable. -/
def aStarLoop (goal : Hex) (gameMap : GameMap) (options : MovementOptions) :
    ℕ → AStarState → PathResult
  | 0, _ => { path := [], cost := none, isValid := false }
  | fuel + 1, st =>
    if st.openSet.isEmpty then { path := [], cost := none, isValid := false }
    else
      match (selectCurrent st.openSet st.fScore).1 with
      | none => { path := [], cost := none, isValid := false }
      | some current =>
        let currentHex := (keyToHex current).getD ⟨0, 0⟩
        if hexEquals currentHex goal then
          reconstructPath st.cameFrom current ((mapGet st.gScore current).getD 0)
        else
          let st2 := { st with openSet := st.openSet.filter (fun k => k != current) }
          let st3 := (getNeighbors currentHex).foldl
            (fun acc n => relaxNeighbor goal gameMap options current acc n) st2
          aStarLoop goal gameMap options fuel st3

/-- `findPath` from `hex.ts`: fail fast when the straight-line distance
already exceeds `options.range`, otherwise run the A* search. -/
def findPath (start goal : Hex) (gameMap : GameMap) (options : MovementOptions) :
    PathResult :=
  if hexDistance start goal > options.range then
    { path := [], cost := none, isValid := false }
  else
    aStarLoop goal gameMap options 1000
      { openSet := [hexToKey start]
        cameFrom := []
        gScore := [(hexToKey start, 0)]
        fScore := [(hexToKey start, hexDistance start goal)] }

/-- Board for the C1 evaluation: an otherwise open board where the only
cost-2 route from (0,0) to (2,0) runs through (1,0), which is a Wall; the
detour (0,0) → (1,-1) → (2,-1) → (2,0) costs 3. -/
def c1Map : GameMap :=
  [(hexToKey ⟨0, 0⟩, { terrain := some TerrainType.NORMAL, occupant := none }),
   (hexToKey ⟨1, 0⟩, { terrain := some TerrainType.WALL, occupant := none }),
   (hexToKey ⟨2, 0⟩, { terrain := some TerrainType.NORMAL, occupant := none }),
   (hexToKey ⟨1, -1⟩, { terrain := some TerrainType.NORMAL, occupant := none }),
   (hexToKey ⟨2, -1⟩, { terrain := some TerrainType.NORMAL, occupant := none })]

def c1Options : MovementOptions :=
  { range := 2, canFly := false, canJump := false,
    ignoreDifficultTerrain := false, ignoreObstacles := false, ignoreFigures := false }

/-- C1: the claim states that a returned `isValid = true` implies the path
cost is at most `options.range`, and that walling off the only route of
cost ≤ range makes `findPath` return `isValid = false`.  The code only
checks `hexDistance start goal > range` up front and never bounds the
accumulated cost during the search, so on this board it returns a valid
path of cost 3 with `range = 2`, refuting both parts. -/
theorem findPath_range_not_enforced :
    (findPath ⟨0, 0⟩ ⟨2, 0⟩ c1Map c1Options).isValid = true ∧
    (findPath ⟨0, 0⟩ ⟨2, 0⟩ c1Map c1Options).cost = some 3 ∧
    c1Options.range = 2 ∧
    hexDistance ⟨0, 0⟩ ⟨2, 0⟩ = 2 ∧
    (findPath ⟨0, 0⟩ ⟨2, 0⟩ c1Map c1Options).path =
      [⟨0, 0⟩, ⟨1, -1⟩, ⟨2, -1⟩, ⟨2, 0⟩] := by
  refine ⟨?_, ?_, ?_, ?_, ?_⟩ <;> decide

end Gloomhaven
